import Mathlib

/-!
Verification development for `update_index.py`, a CLI that scans a directory
for HTML tool pages, extracts a title and a meta description from each file,
renders an escaped HTML fragment and substitutes it into a template to
produce `index.html`.

The Python source is shallowly embedded below.  Pure text functions become
Lean functions on `String` / `List Char`; the directory state is an explicit
list of files with read outcomes; exceptions become `Except`.  Character
classes (`\s` of `re`, `str.strip`, `str.lower`, `str.title`) are modelled
on their ASCII behaviour, which coincides with Python on the ASCII inputs
treated here.
-/

deriving instance DecidableEq for Except

namespace UpdateIndex

/-- The double-quote character. -/
def dq : Char := Char.ofNat 34

/-- The single-quote character. -/
def sq : Char := Char.ofNat 39

/-- The newline character (which `.` of Python `re` never matches without
`re.DOTALL`). -/
def nl : Char := Char.ofNat 10

/-- ASCII whitespace, the ASCII part of both Python `\s` and `str.strip`:
space, tab, newline, carriage return, vertical tab, form feed. -/
def isWsChar (c : Char) : Bool :=
  c == ' ' || c == Char.ofNat 9 || c == nl || c == Char.ofNat 13 ||
    c == Char.ofNat 11 || c == Char.ofNat 12

/-- Python `str.strip()` on a character list: drop whitespace from both ends. -/
def pyStrip (l : List Char) : List Char :=
  ((l.dropWhile isWsChar).reverse.dropWhile isWsChar).reverse

/-- Python `str.lower()` (ASCII model, as in `Char.toLower`). -/
def lowerStr (s : String) : String := String.mk (s.data.map Char.toLower)

/-- Case-insensitive character equality, the `re.IGNORECASE` model. -/
def charEqCI (a b : Char) : Bool := a.toLower == b.toLower

/-- Match a literal (case-insensitively) at the head of the input and return
the remaining input, or `none`.  This is how the fixed words of the regular
expressions of `update_index.py` consume input. -/
def litCI : List Char → List Char → Option (List Char)
  | [], l => some l
  | _ :: _, [] => none
  | p :: ps, c :: cs => if charEqCI p c then litCI ps cs else none

/-- Pattern `\s+` with the following token starting with a non-whitespace letter:
require one whitespace character, then consume the maximal whitespace run. -/
def wsPlus : List Char → Option (List Char)
  | [] => none
  | c :: cs => if isWsChar c then some (cs.dropWhile isWsChar) else none

/-- The character class `["\']` of the description regex. -/
def isQuoteChar (c : Char) : Bool := c == dq || c == sq

/-- Consume one quote character, `["\']`. -/
def quoteTok : List Char → Option (List Char)
  | [] => none
  | c :: cs => if isQuoteChar c then some cs else none

/-- The lazy capture `(.*?)["\']` of the description regex (no `re.DOTALL`,
so `.` excludes the newline): the shortest run of non-newline characters up
to the first quote character of either kind. -/
def captureUntilQuote : List Char → Option (List Char)
  | [] => none
  | c :: cs =>
    if isQuoteChar c then some []
    else if c == nl then none
    else (captureUntilQuote cs).map (fun r => c :: r)

/-- One attempt of the regex
`<meta\s+name=["\']description["\']\s+content=["\'](.*?)["\']`
(with `re.IGNORECASE`) anchored at the head of the input, returning the
captured group. -/
def matchDescAt (l : List Char) : Option (List Char) :=
  (litCI (("<meta").data) l).bind (fun r1 =>
  (wsPlus r1).bind (fun r2 =>
  (litCI (("name=").data) r2).bind (fun r3 =>
  (quoteTok r3).bind (fun r4 =>
  (litCI (("description").data) r4).bind (fun r5 =>
  (quoteTok r5).bind (fun r6 =>
  (wsPlus r6).bind (fun r7 =>
  (litCI (("content=").data) r7).bind (fun r8 =>
  (quoteTok r8).bind (fun r9 =>
  captureUntilQuote r9)))))))))

/-- Model of `re.search` for the description pattern: try each position from the left,
first success wins. -/
def searchDesc : List Char → Option (List Char)
  | [] => none
  | c :: rest =>
    match matchDescAt (c :: rest) with
    | some cap => some cap
    | none => searchDesc rest

/-- Function `extract_description` of `update_index.py`: search for the
meta-description pattern and return the stripped captured group. -/
def extract_description (content : String) : Option String :=
  (searchDesc content.data).map (fun cap => String.mk (pyStrip cap))

/-- Case-insensitive prefix test, used for the closing literal of the lazy
title capture. -/
def isPrefixOfCI : List Char → List Char → Bool
  | [], _ => true
  | _ :: _, [] => false
  | p :: ps, c :: cs => charEqCI p c && isPrefixOfCI ps cs

/-- The lazy capture `(.*?)</title>` with `re.DOTALL` (so `.` matches any
character, newline included): the shortest run of characters up to the first
case-insensitive occurrence of the closing literal. -/
def captureUntilClose : List Char → Option (List Char)
  | [] => none
  | c :: cs =>
    if isPrefixOfCI (("</title>").data) (c :: cs) then some []
    else (captureUntilClose cs).map (fun r => c :: r)

/-- One attempt of the regex `<title>(.*?)</title>` (with
`re.DOTALL | re.IGNORECASE`) anchored at the head of the input. -/
def matchTitleAt (l : List Char) : Option (List Char) :=
  (litCI (("<title>").data) l).bind captureUntilClose

/-- Model of `re.search` for the title pattern. -/
def searchTitle : List Char → Option (List Char)
  | [] => none
  | c :: rest =>
    match matchTitleAt (c :: rest) with
    | some cap => some cap
    | none => searchTitle rest

/-- Function `extract_title` of `update_index.py`: search for the title pattern and
return the stripped captured group. -/
def extract_title (content : String) : Option String :=
  (searchTitle content.data).map (fun cap => String.mk (pyStrip cap))

example : extract_description ("<meta name=\"description\" content=\"  A tool \">") =
    some ("A tool") := by decide
example : extract_description ("<META NAME=\x27DESCRIPTION\x27 CONTENT=\x27x\x27>") =
    some ("x") := by decide
example : extract_description ("<meta name=\"description\" content=\"\">") = some ("") := by
  decide
example : extract_description ("<p>no meta here</p>") = none := by decide
example : extract_title ("<html><TITLE> Hi there </TITLE></html>") = some ("Hi there") := by
  decide
example : extract_title ("<html></html>") = none := by decide
example : extract_title ("<title></title>") = some ("") := by decide

/-! ## Filenames: `Path.stem`, the derived fallback title, Python `or` -/

/-- Python `str.rfind` for the dot character: index of the last occurrence. -/
def rfindDotAux : List Char → Nat → Option Nat → Option Nat
  | [], _, acc => acc
  | c :: cs, i, acc => rfindDotAux cs (i + 1) (if c == '.' then some i else acc)

/-- Python `pathlib.PurePath.stem`: the name without its suffix, where the suffix is
the part from the last dot provided that dot is neither the first nor the
last character. -/
def pyStem (name : List Char) : List Char :=
  match rfindDotAux name 0 none with
  | none => name
  | some i => if 0 < i ∧ i + 1 < name.length then name.take i else name

/-- Python `str.title()` (ASCII model): a letter after a non-letter is
uppercased, a letter after a letter is lowercased, non-letters pass through.
The boolean records whether the previous character was cased. -/
def pyTitleAux : Bool → List Char → List Char
  | _, [] => []
  | prev, c :: cs =>
    if c.isAlpha then (if prev then c.toLower else c.toUpper) :: pyTitleAux true cs
    else c :: pyTitleAux false cs

/-- Expression `filepath.stem.replace("-", " ").replace("_", " ").title()`, the fallback
title derived from the filename in `scan_tools`. -/
def fallbackTitle (name : String) : String :=
  String.mk (pyTitleAux false
    ((pyStem name.data).map (fun c => if c == '-' || c == '_' then ' ' else c)))

/-- Python `x or default` for `x : Optional[str]`: both `None` and the empty
string are falsy, any other string is truthy. -/
def pyOrStr (x : Option String) (dflt : String) : String :=
  match x with
  | none => dflt
  | some s => if s = ("") then dflt else s

example : fallbackTitle ("my-tool_x.html") = ("My Tool X") := by decide
example : fallbackTitle ("a.html") = ("A") := by decide

/-! ## Renderer: `html.escape` and `_render_tools_html` -/

/-- Metadata about a tool extracted from its HTML file (`ToolInfo`). -/
structure ToolInfo where
  filename : String
  title : String
  description : String
deriving DecidableEq

/-- Python `html.escape(s, quote=True)` on one character.  The sequential
replacements of the Python implementation are equivalent to this character
map because no introduced entity contains a character that a later
replacement rewrites. -/
def escChar (c : Char) : List Char :=
  if c == '&' then ("&amp;").data
  else if c == '<' then ("&lt;").data
  else if c == '>' then ("&gt;").data
  else if c == dq then ("&quot;").data
  else if c == sq then ("&#x27;").data
  else [c]

/-- Python `html.escape(s, quote=True)`. -/
def esc (s : String) : String := String.mk (s.data.flatMap escChar)

/-- Literal text of a list item before the escaped filename. -/
def liPre : String := "        <li class=\"tool-item\">\n            <a href=\""

/-- Literal text between the escaped filename and the escaped title. -/
def liMid1 : String := "\" class=\"tool-link\">\n                <span class=\"tool-title\">"

/-- Literal text between the escaped title and the escaped description. -/
def liMid2 : String := "</span>\n            </a><p>"

/-- Literal text after the escaped description. -/
def liSuf : String := "</p>\n        </li>"

/-- The f-string of `_render_tools_html` building one `<li>` item, with
`desc_html` inlined. -/
def renderToolItem (t : ToolInfo) : String :=
  liPre ++ esc t.filename ++ liMid1 ++ esc t.title ++ liMid2 ++ esc t.description ++ liSuf

/-- Python `"\n".join(items)`. -/
def joinNL : List String → String
  | [] => ("")
  | s :: rest =>
    match rest with
    | [] => s
    | _ :: _ => s ++ ("\n") ++ joinNL rest

/-- Function `_render_tools_html` of `update_index.py`: the joined list items. -/
def render_tools_html (tools : List ToolInfo) : String :=
  joinNL (tools.map renderToolItem)

/-! ## Template substitution: Python `str.replace` and `generate_index_html` -/

/-- Python `str.replace(pat, rep)` for a non-empty `pat` (the placeholder is
non-empty): scan left to right, replace every non-overlapping occurrence, and
do not rescan replaced text.  The counter argument skips the characters of an
occurrence just replaced. -/
def replaceAllAux (pat rep : List Char) : Nat → List Char → List Char
  | _, [] => []
  | k + 1, _ :: rest => replaceAllAux pat rep k rest
  | 0, c :: rest =>
    if pat.isPrefixOf (c :: rest) then rep ++ replaceAllAux pat rep (pat.length - 1) rest
    else c :: replaceAllAux pat rep 0 rest

/-- Python `s.replace(pat, rep)` (non-empty `pat`). -/
def pyReplace (s pat rep : String) : String :=
  String.mk (replaceAllAux pat.data rep.data 0 s.data)

/-- The placeholder marker of the template. -/
def PLACEHOLDER : String := "<!-- TOOLS_LIST -->"

/-- Failure of `generate_index_html`: the `FileNotFoundError` raised when the
template file does not exist. -/
inductive GenError where
  | templateNotFound
deriving DecidableEq

/-- Function `generate_index_html` of `update_index.py`: the template state is `none` when the template
file does not exist and `some` its text otherwise; the placeholder is
substituted by the rendered fragment via `str.replace`. -/
def generate_index_html (tools : List ToolInfo) (template : Option String) :
    Except GenError String :=
  match template with
  | none => .error .templateNotFound
  | some tpl => .ok (pyReplace tpl PLACEHOLDER (render_tools_html tools))

example :
    generate_index_html [] (some ("A<!-- TOOLS_LIST -->B<!-- TOOLS_LIST -->C")) =
      .ok ("ABC") := by decide

/-! ## Directory scan: `scan_tools` -/

/-- Outcome of `filepath.read_text(encoding="utf-8")`: the text on success,
`OSError` (caught by `scan_tools`), or `UnicodeDecodeError` (not an
`OSError`, hence not caught). -/
inductive ReadResult where
  | ok (content : String)
  | osError (msg : String)
  | decodeError
deriving DecidableEq

/-- One directory entry: a file name together with what reading it yields.
The model identifies the printed path of a file with its name. -/
structure DirFile where
  name : String
  read : ReadResult
deriving DecidableEq

/-- The exceptions that can escape `scan_tools`: `MissingDescriptionError`
(carrying the offending filename) and the uncaught decoding error. -/
inductive ScanError where
  | missingDescription (filename : String)
  | decodeError (filename : String)
deriving DecidableEq

/-- Result of a completed scan: the collected tools and the warnings printed
to the error stream, in order. -/
structure ScanOutput where
  tools : List ToolInfo
  warnings : List String
deriving DecidableEq

/-- Membership in `directory.glob("*.html")`: `fnmatch` translates the pattern
to a full match of `.*\.html`, i.e. the name ends with `.html`. -/
def htmlGlob (name : String) : Bool := ((".html").data).isSuffixOf name.data

/-- Test `filepath.name.lower() in [e.lower() for e in exclude]`. -/
def excludedBy (ex : List String) (name : String) : Bool :=
  (ex.map lowerStr).contains (lowerStr name)

/-- The default exclusion list of `scan_tools`. -/
def defaultExclude : List String := [("index.html"), ("index.template.html")]

/-- The warning printed when a file cannot be read:
`f"Warning: Could not read \x7bfilepath\x7d: \x7be\x7d"`. -/
def warnFor (name msg : String) : String :=
  ("Warning: Could not read ") ++ name ++ (": ") ++ msg

/-- The title computed for a scanned file:
`extract_title(content) or filepath.stem.replace(...).title()`. -/
def titleFor (content : String) (name : String) : String :=
  pyOrStr (extract_title content) (fallbackTitle name)

/-- The per-file loop of `scan_tools`, before the final sort.  Non-matching
and excluded names are skipped; an `OSError` read is downgraded to a warning;
a decoding error propagates; a missing description raises
`MissingDescriptionError`; otherwise a `ToolInfo` is collected. -/
def scanGo (ex : List String) : List DirFile → Except ScanError ScanOutput
  | [] => .ok ⟨[], []⟩
  | f :: rest =>
    if htmlGlob f.name = false then scanGo ex rest
    else if excludedBy ex f.name then scanGo ex rest
    else
      match f.read with
      | .osError msg =>
        (scanGo ex rest).map (fun o => ⟨o.tools, warnFor f.name msg :: o.warnings⟩)
      | .decodeError => .error (.decodeError f.name)
      | .ok content =>
        match extract_description content with
        | none => .error (.missingDescription f.name)
        | some d =>
          (scanGo ex rest).map (fun o =>
            ⟨⟨f.name, titleFor content f.name, d⟩ :: o.tools, o.warnings⟩)

/-- Python string comparison (code-point lexicographic `<=`) on character
lists, used by `sorted(..., key=lambda t: t.filename.lower())`. -/
def lexLe : List Char → List Char → Bool
  | [], _ => true
  | _ :: _, [] => false
  | a :: as, b :: bs =>
    if a.toNat < b.toNat then true
    else if b.toNat < a.toNat then false
    else lexLe as bs

/-- The sort relation of `scan_tools`: case-insensitive comparison of
filenames. -/
def toolLE (a b : ToolInfo) : Prop :=
  lexLe (lowerStr a.filename).data (lowerStr b.filename).data = true

instance : DecidableRel toolLE := fun a b =>
  inferInstanceAs (Decidable (lexLe (lowerStr a.filename).data (lowerStr b.filename).data = true))

/-- Function `scan_tools` of `update_index.py`: run the per-file loop, then
`sorted(tools, key=lambda t: t.filename.lower())` — a stable sort, modelled
by insertion sort, which is stable. -/
def scan_tools (files : List DirFile) (ex : List String) : Except ScanError ScanOutput :=
  (scanGo ex files).map (fun o => ⟨List.insertionSort toolLE o.tools, o.warnings⟩)

example :
    scan_tools [⟨("b.html"), .ok ("<title>B</title><meta name=\"description\" content=\"db\">")⟩,
                ⟨("A.html"), .ok ("<meta name=\"description\" content=\"da\">")⟩,
                ⟨("index.html"), .ok ("x")⟩,
                ⟨("notes.txt"), .ok ("y")⟩,
                ⟨("c.html"), .osError ("boom")⟩] defaultExclude =
      .ok ⟨[⟨("A.html"), ("A"), ("da")⟩, ⟨("b.html"), ("B"), ("db")⟩],
           [warnFor ("c.html") ("boom")]⟩ := by decide

/-! ## CLI driver: the mode logic of `main` -/

/-- Observable outcome of one run of `main` after the new content has been
generated: exit code, the content written to `index.html` (if any), and the
lines printed to stdout and stderr. -/
structure RunResult where
  exitCode : Nat
  written : Option String
  stdoutLines : List String
  stderrLines : List String
deriving DecidableEq

/-- The separator line `"=" * 60` printed around the dry-run preview. -/
def eqSep : String := String.mk (List.replicate 60 '=')

/-- The decision logic of `main` (lines 184-207 of `update_index.py`):
`existing` is the current content of `index.html` (`none` when the file does
not exist) and `newContent` the freshly generated document.  Identical
content returns 0 early (printing only under `--check`/`--dry-run`);
`--check` short-circuits with exit 1; `--dry-run` prints the preview and
writes nothing; otherwise the content is written. -/
def mainLogic (check dryRun : Bool) (existing : Option String) (newContent : String)
    (toolCount : Nat) : RunResult :=
  if existing = some newContent then
    ⟨0, none, if dryRun || check then [("index.html is up to date.")] else [], []⟩
  else if check then
    ⟨1, none, [], [("index.html is out of date.")]⟩
  else if dryRun then
    ⟨0, none, [("index.html would be updated:"), eqSep, newContent, eqSep], []⟩
  else
    ⟨0, some newContent,
      [("Generated index.html with ") ++ toString toolCount ++ (" tool(s).")], []⟩

/-- Whether a directory entry makes `scan_tools` abort: it must survive the
glob and the exclusion list, and then either fail to decode or lack a meta
description.  (An `OSError` read never aborts.) -/
def abortsFile (ex : List String) (g : DirFile) : Bool :=
  htmlGlob g.name && !excludedBy ex g.name &&
    (match g.read with
     | .ok c => (extract_description c).isNone
     | .osError _ => false
     | .decodeError => true)

/-- Schema of a well-formed meta-description tag in the sense of the spec:
attribute order `name` then `content`, either quoting on each attribute,
whitespace between the pieces, and a captured value free of quotes and
newlines. -/
def metaTag (ws1 : List Char) (q1 q2 : Char) (ws2 : List Char) (q3 q4 : Char)
    (cap : List Char) : List Char :=
  ("<meta").data ++ ws1 ++ ("name=").data ++ q1 :: ("description").data ++
    q2 :: ws2 ++ ("content=").data ++ q3 :: cap ++ [q4]

/-! ## Helper lemmas about the scan loop -/

theorem scan_tools_ok_elim {files : List DirFile} {ex : List String} {res : ScanOutput}
    (h : scan_tools files ex = .ok res) :
    ∃ o, scanGo ex files = .ok o ∧
      res = ⟨List.insertionSort toolLE o.tools, o.warnings⟩ := by
  unfold scan_tools at h
  cases hgo : scanGo ex files with
  | error e => rw [hgo] at h; exact absurd h (by simp [Except.map])
  | ok o =>
    rw [hgo] at h
    simp only [Except.map, Except.ok.injEq] at h
    exact ⟨o, rfl, h.symm⟩

theorem mem_insertionSort {α : Type} (r : α → α → Prop) [DecidableRel r]
    {a : α} {l : List α} : a ∈ List.insertionSort r l ↔ a ∈ l :=
  (List.perm_insertionSort r l).mem_iff

theorem scanGo_ok_shape {ex : List String} :
    ∀ {files : List DirFile} {o : ScanOutput}, scanGo ex files = .ok o →
      ∀ t ∈ o.tools,
        ∃ f, f ∈ files ∧ f.name = t.filename ∧ htmlGlob f.name = true ∧
          ∃ c, f.read = .ok c ∧ extract_description c = some t.description ∧
            t.title = titleFor c f.name := by
  intro files
  induction files with
  | nil =>
    intro o h t ht
    simp only [scanGo, Except.ok.injEq] at h
    rw [← h] at ht
    simp at ht
  | cons f rest ih =>
    intro o h t ht
    simp only [scanGo] at h
    by_cases hg : htmlGlob f.name = false
    · rw [if_pos hg] at h
      obtain ⟨f', hf', rest'⟩ := ih h t ht
      exact ⟨f', List.mem_cons_of_mem _ hf', rest'⟩
    · rw [if_neg hg] at h
      by_cases hx : excludedBy ex f.name
      · rw [if_pos hx] at h
        obtain ⟨f', hf', rest'⟩ := ih h t ht
        exact ⟨f', List.mem_cons_of_mem _ hf', rest'⟩
      · rw [if_neg hx] at h
        cases hr : f.read with
        | osError msg =>
          rw [hr] at h
          cases hgo : scanGo ex rest with
          | error e => rw [hgo] at h; exact absurd h (by simp [Except.map])
          | ok o' =>
            rw [hgo] at h
            simp only [Except.map, Except.ok.injEq] at h
            rw [← h] at ht
            obtain ⟨f', hf', rest'⟩ := ih hgo t ht
            exact ⟨f', List.mem_cons_of_mem _ hf', rest'⟩
        | decodeError => rw [hr] at h; exact absurd h (by simp)
        | ok content =>
          rw [hr] at h
          dsimp only at h
          cases hd : extract_description content with
          | none => rw [hd] at h; exact absurd h (by simp)
          | some d =>
            rw [hd] at h
            cases hgo : scanGo ex rest with
            | error e => rw [hgo] at h; exact absurd h (by simp [Except.map])
            | ok o' =>
              rw [hgo] at h
              simp only [Except.map, Except.ok.injEq] at h
              rw [← h] at ht
              rcases List.mem_cons.mp ht with heq | hmem
              · subst heq
                refine ⟨f, List.mem_cons_self _ _, rfl, ?_, content, hr, hd, rfl⟩
                revert hg; cases htmlGlob f.name <;> simp
              · obtain ⟨f', hf', rest'⟩ := ih hgo t hmem
                exact ⟨f', List.mem_cons_of_mem _ hf', rest'⟩

theorem scanGo_cons_not_html {ex : List String} {f : DirFile} {l : List DirFile}
    (h : htmlGlob f.name = false) : scanGo ex (f :: l) = scanGo ex l := by
  simp [scanGo, h]

theorem scanGo_cons_excluded {ex : List String} {f : DirFile} {l : List DirFile}
    (h : excludedBy ex f.name = true) : scanGo ex (f :: l) = scanGo ex l := by
  by_cases hg : htmlGlob f.name = false
  · simp [scanGo, hg]
  · simp [scanGo, hg, h]

theorem scanGo_cons_osError {ex : List String} {f : DirFile} {l : List DirFile} {m : String}
    (hgT : htmlGlob f.name = true) (hxF : excludedBy ex f.name = false)
    (hr : f.read = .osError m) :
    scanGo ex (f :: l) =
      (scanGo ex l).map (fun o => ⟨o.tools, warnFor f.name m :: o.warnings⟩) := by
  simp [scanGo, hgT, hxF, hr]

theorem scanGo_cons_decode {ex : List String} {f : DirFile} {l : List DirFile}
    (hgT : htmlGlob f.name = true) (hxF : excludedBy ex f.name = false)
    (hr : f.read = .decodeError) :
    scanGo ex (f :: l) = .error (.decodeError f.name) := by
  simp [scanGo, hgT, hxF, hr]

theorem scanGo_cons_ok_none {ex : List String} {f : DirFile} {l : List DirFile}
    {content : String} (hgT : htmlGlob f.name = true) (hxF : excludedBy ex f.name = false)
    (hr : f.read = .ok content) (hd : extract_description content = none) :
    scanGo ex (f :: l) = .error (.missingDescription f.name) := by
  simp [scanGo, hgT, hxF, hr, hd]

theorem scanGo_cons_ok_some {ex : List String} {f : DirFile} {l : List DirFile}
    {content d : String} (hgT : htmlGlob f.name = true) (hxF : excludedBy ex f.name = false)
    (hr : f.read = .ok content) (hd : extract_description content = some d) :
    scanGo ex (f :: l) =
      (scanGo ex l).map (fun o =>
        ⟨⟨f.name, titleFor content f.name, d⟩ :: o.tools, o.warnings⟩) := by
  simp [scanGo, hgT, hxF, hr, hd]

theorem scanGo_error_extend {ex : List String} {e : ScanError} :
    ∀ (pre rest : List DirFile), (∀ g ∈ pre, abortsFile ex g = false) →
      scanGo ex rest = .error e → scanGo ex (pre ++ rest) = .error e := by
  intro pre
  induction pre with
  | nil => intro rest _ h; simpa using h
  | cons g pre' ih =>
    intro rest hclean h
    have hab : abortsFile ex g = false := hclean g (List.mem_cons_self _ _)
    have hrest : ∀ x ∈ pre', abortsFile ex x = false := fun x hx =>
      hclean x (List.mem_cons_of_mem _ hx)
    have ihr := ih rest hrest h
    rw [List.cons_append]
    by_cases hg : htmlGlob g.name = false
    · rw [scanGo_cons_not_html hg]; exact ihr
    · have hgT : htmlGlob g.name = true := by revert hg; cases htmlGlob g.name <;> simp
      by_cases hx : excludedBy ex g.name
      · rw [scanGo_cons_excluded hx]; exact ihr
      · have hxF : excludedBy ex g.name = false := by
          revert hx; cases excludedBy ex g.name <;> simp
        cases hr : g.read with
        | osError msg => rw [scanGo_cons_osError hgT hxF hr, ihr]; rfl
        | decodeError => simp [abortsFile, hgT, hxF, hr] at hab
        | ok content =>
          cases hd : extract_description content with
          | none => simp [abortsFile, hgT, hxF, hr, hd] at hab
          | some d => rw [scanGo_cons_ok_some hgT hxF hr hd, ihr]; rfl

theorem scanGo_ok_no_abort {ex : List String} :
    ∀ {files : List DirFile} {o : ScanOutput}, scanGo ex files = .ok o →
      ∀ g ∈ files, abortsFile ex g = false := by
  intro files
  induction files with
  | nil => intro o _ g hg; simp at hg
  | cons f rest ih =>
    intro o h g hgmem
    simp only [scanGo] at h
    by_cases hg : htmlGlob f.name = false
    · rw [if_pos hg] at h
      rcases List.mem_cons.mp hgmem with heq | hmem
      · subst heq; simp [abortsFile, hg]
      · exact ih h g hmem
    · rw [if_neg hg] at h
      by_cases hx : excludedBy ex f.name
      · rw [if_pos hx] at h
        rcases List.mem_cons.mp hgmem with heq | hmem
        · subst heq; simp [abortsFile, hx]
        · exact ih h g hmem
      · rw [if_neg hx] at h
        cases hr : f.read with
        | osError msg =>
          rw [hr] at h; dsimp only at h
          cases hgo : scanGo ex rest with
          | error e => rw [hgo] at h; exact absurd h (by simp [Except.map])
          | ok o' =>
            rcases List.mem_cons.mp hgmem with heq | hmem
            · subst heq; simp [abortsFile, hr]
            · exact ih hgo g hmem
        | decodeError => rw [hr] at h; dsimp only at h; exact absurd h (by simp)
        | ok content =>
          rw [hr] at h; dsimp only at h
          cases hd : extract_description content with
          | none => rw [hd] at h; exact absurd h (by simp)
          | some d =>
            rw [hd] at h
            cases hgo : scanGo ex rest with
            | error e => rw [hgo] at h; exact absurd h (by simp [Except.map])
            | ok o' =>
              rcases List.mem_cons.mp hgmem with heq | hmem
              · subst heq; simp [abortsFile, hr, hd]
              · exact ih hgo g hmem

theorem scanGo_osError_split {ex : List String} {name msg : String} {post : List DirFile}
    (hgT : htmlGlob name = true) (hxF : excludedBy ex name = false) :
    ∀ pre : List DirFile,
      (∃ e, scanGo ex (pre ++ ⟨name, .osError msg⟩ :: post) = .error e ∧
            scanGo ex (pre ++ post) = .error e) ∨
      (∃ o o' w1 w2, scanGo ex (pre ++ ⟨name, .osError msg⟩ :: post) = .ok o ∧
            scanGo ex (pre ++ post) = .ok o' ∧ o.tools = o'.tools ∧
            o.warnings = w1 ++ warnFor name msg :: w2 ∧ o'.warnings = w1 ++ w2) := by
  intro pre
  induction pre with
  | nil =>
    have hred : scanGo ex (⟨name, .osError msg⟩ :: post) =
        (scanGo ex post).map (fun o => ⟨o.tools, warnFor name msg :: o.warnings⟩) := by
      simp [scanGo, hgT, hxF]
    cases hgo : scanGo ex post with
    | error e =>
      left
      exact ⟨e, by simpa [hgo] using hred, by simpa using hgo⟩
    | ok o' =>
      right
      refine ⟨⟨o'.tools, warnFor name msg :: o'.warnings⟩, o', [], o'.warnings,
        by simpa [hgo] using hred, by simpa using hgo, rfl, rfl, rfl⟩
  | cons g pre' ih =>
    rw [List.cons_append, List.cons_append]
    by_cases hg : htmlGlob g.name = false
    · rw [scanGo_cons_not_html hg, scanGo_cons_not_html hg]; exact ih
    · have hgT : htmlGlob g.name = true := by revert hg; cases htmlGlob g.name <;> simp
      by_cases hx : excludedBy ex g.name
      · rw [scanGo_cons_excluded hx, scanGo_cons_excluded hx]; exact ih
      · have hxF : excludedBy ex g.name = false := by
          revert hx; cases excludedBy ex g.name <;> simp
        cases hr : g.read with
        | osError m =>
          rw [scanGo_cons_osError hgT hxF hr, scanGo_cons_osError hgT hxF hr]
          rcases ih with ⟨e, h1, h2⟩ | ⟨o, o', w1, w2, h1, h2, ht, hw, hw'⟩
          · left; exact ⟨e, by rw [h1]; rfl, by rw [h2]; rfl⟩
          · right
            exact ⟨⟨o.tools, warnFor g.name m :: o.warnings⟩,
              ⟨o'.tools, warnFor g.name m :: o'.warnings⟩, warnFor g.name m :: w1, w2,
              by rw [h1]; rfl, by rw [h2]; rfl, by simpa using ht,
              by simp [hw], by simp [hw']⟩
        | decodeError =>
          rw [scanGo_cons_decode hgT hxF hr, scanGo_cons_decode hgT hxF hr]
          left; exact ⟨.decodeError g.name, rfl, rfl⟩
        | ok content =>
          cases hd : extract_description content with
          | none =>
            rw [scanGo_cons_ok_none hgT hxF hr hd, scanGo_cons_ok_none hgT hxF hr hd]
            left; exact ⟨.missingDescription g.name, rfl, rfl⟩
          | some d =>
            rw [scanGo_cons_ok_some hgT hxF hr hd, scanGo_cons_ok_some hgT hxF hr hd]
            rcases ih with ⟨e, h1, h2⟩ | ⟨o, o', w1, w2, h1, h2, ht, hw, hw'⟩
            · left; exact ⟨e, by rw [h1]; rfl, by rw [h2]; rfl⟩
            · right
              exact ⟨⟨⟨g.name, titleFor content g.name, d⟩ :: o.tools, o.warnings⟩,
                ⟨⟨g.name, titleFor content g.name, d⟩ :: o'.tools, o'.warnings⟩, w1, w2,
                by rw [h1]; rfl, by rw [h2]; rfl, by simp [ht],
                by simpa using hw, by simpa using hw'⟩

/-! ## Claims C1, C3, C5, C9 -/

/-- Claim C1, counterexample: `scan_tools` can return an entry whose
description is the empty string.  A file whose meta tag has `content=""`
yields `extract_description = some ""`, which is not `None`, so no error is
raised and an empty-description `ToolInfo` is produced. -/
theorem scan_empty_description_possible :
    scan_tools [⟨("a.html"), .ok ("<meta name=\"description\" content=\"\">")⟩]
        defaultExclude =
      .ok ⟨[⟨("a.html"), ("A"), ("")⟩], []⟩ ∧
    (ToolInfo.mk ("a.html") ("A") ("")).description = ("") :=
  ⟨by decide, rfl⟩

/-- Claim C1, amended: every `ToolInfo` returned by `scan_tools` carries a
description that was successfully extracted from the file content (absence
of the tag is a hard error and never yields an entry), though the extracted
value may itself be the empty string. -/
theorem scan_descriptions_present :
    ∀ (files : List DirFile) (ex : List String) (res : ScanOutput),
      scan_tools files ex = .ok res →
      ∀ t ∈ res.tools, ∃ content,
        DirFile.mk t.filename (.ok content) ∈ files ∧
        extract_description content = some t.description := by
  intro files ex res h t ht
  obtain ⟨o, hgo, hres⟩ := scan_tools_ok_elim h
  rw [hres] at ht
  have ht' : t ∈ o.tools := (mem_insertionSort toolLE).mp ht
  obtain ⟨f, hf, hname, hhtml, c, hread, hdesc, htitle⟩ := scanGo_ok_shape hgo t ht'
  refine ⟨c, ?_, hdesc⟩
  have hfe : DirFile.mk t.filename (.ok c) = f := by
    cases f; simp_all
  rw [hfe]; exact hf

/-- Witness for the amended C1 at a concrete directory. -/
theorem scan_descriptions_present_witness :
    ∃ content, DirFile.mk ("a.html") (.ok content) ∈
        [DirFile.mk ("a.html") (.ok ("<meta name=\"description\" content=\"da\">"))] ∧
      extract_description content = some ("da") :=
  scan_descriptions_present
    [DirFile.mk ("a.html") (.ok ("<meta name=\"description\" content=\"da\">"))]
    defaultExclude ⟨[⟨("a.html"), ("A"), ("da")⟩], []⟩ (by decide)
    ⟨("a.html"), ("A"), ("da")⟩ (by decide)

/-- Claim C3: a readable, non-excluded `.html` file without a matching
meta-description tag makes `scan_tools` raise `MissingDescriptionError`
naming that file (here: the first aborting file in scan order), and a
successful scan implies no file of the directory could have aborted it, so
no result list is ever produced in presence of such a file. -/
theorem scan_missing_description_aborts :
    (∀ (ex : List String) (pre : List DirFile) (name content : String)
        (post : List DirFile),
      (∀ g ∈ pre, abortsFile ex g = false) →
      htmlGlob name = true → excludedBy ex name = false →
      extract_description content = none →
      scan_tools (pre ++ ⟨name, .ok content⟩ :: post) ex =
        .error (.missingDescription name)) ∧
    (∀ (files : List DirFile) (ex : List String) (res : ScanOutput),
      scan_tools files ex = .ok res → ∀ g ∈ files, abortsFile ex g = false) := by
  constructor
  · intro ex pre name content post hclean hgT hxF hd
    have hin : scanGo ex (⟨name, .ok content⟩ :: post) =
        .error (.missingDescription name) := scanGo_cons_ok_none hgT hxF rfl hd
    have hext := scanGo_error_extend pre _ hclean hin
    unfold scan_tools
    rw [hext]; rfl
  · intro files ex res h
    obtain ⟨o, hgo, -⟩ := scan_tools_ok_elim h
    exact scanGo_ok_no_abort hgo

/-- Witness for C3 at a concrete directory. -/
theorem scan_missing_description_aborts_witness :
    scan_tools
        [DirFile.mk ("good.html") (.ok ("<meta name=\"description\" content=\"g\">")),
         DirFile.mk ("nodesc.html") (.ok ("<p>x</p>"))] defaultExclude =
      .error (.missingDescription ("nodesc.html")) :=
  scan_missing_description_aborts.1 defaultExclude
    [DirFile.mk ("good.html") (.ok ("<meta name=\"description\" content=\"g\">"))]
    ("nodesc.html") ("<p>x</p>") [] (by decide) (by decide) (by decide) (by decide)

/-- Claim C9: a decoding failure (not an `OSError`) is not downgraded to a
warning: it aborts the whole scan, and no successful scan can contain a
non-excluded `.html` file whose read decode-fails. -/
theorem scan_decode_error_propagates :
    (∀ (ex : List String) (pre : List DirFile) (name : String) (post : List DirFile),
      (∀ g ∈ pre, abortsFile ex g = false) →
      htmlGlob name = true → excludedBy ex name = false →
      scan_tools (pre ++ ⟨name, .decodeError⟩ :: post) ex =
        .error (.decodeError name)) ∧
    (∀ (files : List DirFile) (ex : List String) (res : ScanOutput),
      scan_tools files ex = .ok res → ∀ g ∈ files,
        htmlGlob g.name = true → excludedBy ex g.name = false →
        g.read ≠ .decodeError) := by
  constructor
  · intro ex pre name post hclean hgT hxF
    have hin : scanGo ex (⟨name, .decodeError⟩ :: post) = .error (.decodeError name) :=
      scanGo_cons_decode hgT hxF rfl
    have hext := scanGo_error_extend pre _ hclean hin
    unfold scan_tools
    rw [hext]; rfl
  · intro files ex res h g hgmem hgT hxF hr
    obtain ⟨o, hgo, -⟩ := scan_tools_ok_elim h
    have := scanGo_ok_no_abort hgo g hgmem
    simp [abortsFile, hgT, hxF, hr] at this

/-- Witness for C9 at a concrete directory. -/
theorem scan_decode_error_propagates_witness :
    scan_tools
        [DirFile.mk ("good.html") (.ok ("<meta name=\"description\" content=\"g\">")),
         DirFile.mk ("bad.html") .decodeError,
         DirFile.mk ("later.html") (.ok ("<p>x</p>"))] defaultExclude =
      .error (.decodeError ("bad.html")) :=
  scan_decode_error_propagates.1 defaultExclude
    [DirFile.mk ("good.html") (.ok ("<meta name=\"description\" content=\"g\">"))]
    ("bad.html") [DirFile.mk ("later.html") (.ok ("<p>x</p>"))]
    (by decide) (by decide) (by decide)

/-- Claim C5: an `OSError` while reading one file produces the warning on
the error stream, omits exactly that file from the result, and the scan
continues over the remaining files; removing the failing file changes
nothing else (same tools on success, same error on failure). -/
theorem scan_os_error_skips_and_continues :
    ∀ (ex : List String) (pre post : List DirFile) (name msg : String),
      htmlGlob name = true → excludedBy ex name = false →
      (∀ res, scan_tools (pre ++ ⟨name, .osError msg⟩ :: post) ex = .ok res →
         warnFor name msg ∈ res.warnings ∧
         ∃ res2, scan_tools (pre ++ post) ex = .ok res2 ∧ res2.tools = res.tools) ∧
      (∀ e, scan_tools (pre ++ ⟨name, .osError msg⟩ :: post) ex = .error e →
         scan_tools (pre ++ post) ex = .error e) := by
  intro ex pre post name msg hgT hxF
  rcases scanGo_osError_split hgT hxF pre with
    ⟨e, h1, h2⟩ | ⟨o, o', w1, w2, h1, h2, ht, hw, hw'⟩
  · constructor
    · intro res hres
      exfalso
      unfold scan_tools at hres; rw [h1] at hres
      exact absurd hres (by simp [Except.map])
    · intro e' he'
      unfold scan_tools at he'; rw [h1] at he'
      simp only [Except.map, Except.error.injEq] at he'
      subst he'
      unfold scan_tools; rw [h2]; rfl
  · constructor
    · intro res hres
      unfold scan_tools at hres; rw [h1] at hres
      simp only [Except.map, Except.ok.injEq] at hres
      subst hres
      constructor
      · show warnFor name msg ∈ o.warnings
        rw [hw]; exact List.mem_append_right _ (List.mem_cons_self _ _)
      · refine ⟨⟨List.insertionSort toolLE o'.tools, o'.warnings⟩, ?_, ?_⟩
        · unfold scan_tools; rw [h2]; rfl
        · show List.insertionSort toolLE o'.tools = List.insertionSort toolLE o.tools
          rw [ht]
    · intro e' he'
      exfalso
      unfold scan_tools at he'; rw [h1] at he'
      exact absurd he' (by simp [Except.map])

/-! ## Ordering lemmas for the sort of `scan_tools` (claim C6) -/

theorem lexLe_refl : ∀ l : List Char, lexLe l l = true := by
  intro l
  induction l with
  | nil => rfl
  | cons a as ih => simp [lexLe, Nat.lt_irrefl, ih]

theorem lexLe_total : ∀ a b : List Char, lexLe a b = true ∨ lexLe b a = true := by
  intro a
  induction a with
  | nil => intro b; left; rfl
  | cons x xs ih =>
    intro b
    cases b with
    | nil => right; rfl
    | cons y ys =>
      simp only [lexLe]
      rcases Nat.lt_trichotomy x.toNat y.toNat with h | h | h
      · left; rw [if_pos h]
      · have e1 : ¬ x.toNat < y.toNat := by omega
        have e2 : ¬ y.toNat < x.toNat := by omega
        rw [if_neg e1, if_neg e2, if_neg e2, if_neg e1]
        exact ih ys
      · right; rw [if_pos h]

theorem lexLe_trans :
    ∀ a b c : List Char, lexLe a b = true → lexLe b c = true → lexLe a c = true := by
  intro a
  induction a with
  | nil => intro b c _ _; rfl
  | cons x xs ih =>
    intro b c hab hbc
    cases b with
    | nil => simp [lexLe] at hab
    | cons y ys =>
      cases c with
      | nil => simp [lexLe] at hbc
      | cons z zs =>
        simp only [lexLe] at hab hbc ⊢
        by_cases h1 : x.toNat < y.toNat
        · by_cases h2 : y.toNat < z.toNat
          · rw [if_pos (by omega)]
          · by_cases h3 : z.toNat < y.toNat
            · rw [if_neg h2, if_pos h3] at hbc; exact absurd hbc (by simp)
            · rw [if_pos (by omega)]
        · by_cases h1' : y.toNat < x.toNat
          · rw [if_neg h1, if_pos h1'] at hab; exact absurd hab (by simp)
          · rw [if_neg h1, if_neg h1'] at hab
            by_cases h2 : y.toNat < z.toNat
            · rw [if_pos (by omega)]
            · by_cases h3 : z.toNat < y.toNat
              · rw [if_neg h2, if_pos h3] at hbc; exact absurd hbc (by simp)
              · rw [if_neg h2, if_neg h3] at hbc
                rw [if_neg (by omega), if_neg (by omega)]
                exact ih ys zs hab hbc

instance : IsTotal ToolInfo toolLE := ⟨fun _ _ => lexLe_total _ _⟩

instance : IsTrans ToolInfo toolLE := ⟨fun _ _ _ => lexLe_trans _ _ _⟩

theorem filter_orderedInsert {α : Type} (r : α → α → Prop) [DecidableRel r]
    (p : α → Bool) (hp : ∀ x y, p x = true → p y = true → r x y) (a : α) :
    ∀ l : List α, (List.orderedInsert r a l).filter p =
      if p a then a :: l.filter p else l.filter p := by
  intro l
  induction l with
  | nil => simp [List.orderedInsert, List.filter_cons]
  | cons b l ih =>
    simp only [List.orderedInsert]
    by_cases hr : r a b
    · rw [if_pos hr, List.filter_cons]
    · rw [if_neg hr]
      by_cases hpa : p a <;> by_cases hpb : p b
      · exact absurd (hp _ _ hpa hpb) hr
      · simp [List.filter_cons, ih, hpa, hpb]
      · simp [List.filter_cons, ih, hpa, hpb]
      · simp [List.filter_cons, ih, hpa, hpb]

theorem filter_insertionSort {α : Type} (r : α → α → Prop) [DecidableRel r]
    (p : α → Bool) (hp : ∀ x y, p x = true → p y = true → r x y) :
    ∀ l : List α, (List.insertionSort r l).filter p = l.filter p := by
  intro l
  induction l with
  | nil => rfl
  | cons a l ih =>
    simp only [List.insertionSort]
    rw [filter_orderedInsert r p hp, ih, List.filter_cons]

/-- Claim C6: the list returned by `scan_tools` is sorted by filename under
case-insensitive comparison, the sort is stable (entries with any fixed
case-folded filename keep their pre-sort relative order), and in particular
`Banana.html`/`apple.html` come out as `apple.html` then `Banana.html`. -/
theorem scan_sorted_case_insensitive_stable :
    (∀ (files : List DirFile) (ex : List String) (res : ScanOutput),
      scan_tools files ex = .ok res →
      res.tools.Sorted toolLE ∧
      ∃ raw, scanGo ex files = .ok raw ∧
        res.tools = List.insertionSort toolLE raw.tools ∧
        ∀ key : String,
          res.tools.filter (fun t => lowerStr t.filename == key) =
            raw.tools.filter (fun t => lowerStr t.filename == key)) ∧
    scan_tools
        [⟨("Banana.html"), .ok ("<meta name=\"description\" content=\"b\">")⟩,
         ⟨("apple.html"), .ok ("<meta name=\"description\" content=\"a\">")⟩]
        defaultExclude =
      .ok ⟨[⟨("apple.html"), ("Apple"), ("a")⟩, ⟨("Banana.html"), ("Banana"), ("b")⟩],
           []⟩ := by
  constructor
  · intro files ex res h
    obtain ⟨o, hgo, hres⟩ := scan_tools_ok_elim h
    subst hres
    refine ⟨List.sorted_insertionSort toolLE o.tools, o, hgo, rfl, ?_⟩
    intro key
    refine filter_insertionSort toolLE _ ?_ o.tools
    intro x y hx hy
    have hx' : lowerStr x.filename = key := eq_of_beq hx
    have hy' : lowerStr y.filename = key := eq_of_beq hy
    unfold toolLE
    rw [hx', hy']
    exact lexLe_refl _
  · decide

/-- Witness for C6: the general statement applied to the concrete
Banana/apple directory. -/
theorem scan_sorted_case_insensitive_stable_witness :
    (ScanOutput.mk
        [⟨("apple.html"), ("Apple"), ("a")⟩, ⟨("Banana.html"), ("Banana"), ("b")⟩]
        []).tools.Sorted toolLE ∧
    ∃ raw, scanGo defaultExclude
        [⟨("Banana.html"), .ok ("<meta name=\"description\" content=\"b\">")⟩,
         ⟨("apple.html"), .ok ("<meta name=\"description\" content=\"a\">")⟩] = .ok raw ∧
      (ScanOutput.mk
        [⟨("apple.html"), ("Apple"), ("a")⟩, ⟨("Banana.html"), ("Banana"), ("b")⟩]
        []).tools = List.insertionSort toolLE raw.tools ∧
      ∀ key : String,
        (ScanOutput.mk
          [⟨("apple.html"), ("Apple"), ("a")⟩, ⟨("Banana.html"), ("Banana"), ("b")⟩]
          []).tools.filter (fun t => lowerStr t.filename == key) =
          raw.tools.filter (fun t => lowerStr t.filename == key) :=
  scan_sorted_case_insensitive_stable.1
    [⟨("Banana.html"), .ok ("<meta name=\"description\" content=\"b\">")⟩,
     ⟨("apple.html"), .ok ("<meta name=\"description\" content=\"a\">")⟩]
    defaultExclude
    ⟨[⟨("apple.html"), ("Apple"), ("a")⟩, ⟨("Banana.html"), ("Banana"), ("b")⟩], []⟩
    (by decide)

/-! ## Claim C10: title fallback and non-empty titles -/

theorem pyTitleAux_length : ∀ (b : Bool) (l : List Char),
    (pyTitleAux b l).length = l.length := by
  intro b l
  induction l generalizing b with
  | nil => rfl
  | cons c cs ih => by_cases hc : c.isAlpha <;> simp [pyTitleAux, hc, ih]

theorem htmlGlob_data_ne_nil {name : String} (h : htmlGlob name = true) :
    name.data ≠ [] := by
  unfold htmlGlob at h
  have hs : ((".html").data) <:+ name.data := by
    exact List.isSuffixOf_iff_suffix.mp h
  have hlen : 5 ≤ name.data.length := by
    have := hs.length_le
    simpa using this
  intro hnil
  rw [hnil] at hlen
  simp at hlen

theorem pyStem_ne_nil {l : List Char} (h : l ≠ []) : pyStem l ≠ [] := by
  unfold pyStem
  cases hf : rfindDotAux l 0 none with
  | none => exact h
  | some i =>
    dsimp only
    by_cases hc : 0 < i ∧ i + 1 < l.length
    · rw [if_pos hc]
      intro hnil
      have hlen : (l.take i).length = 0 := by rw [hnil]; rfl
      rw [List.length_take] at hlen
      have hl : 0 < l.length := List.length_pos.mpr h
      omega
    · rw [if_neg hc]; exact h

theorem fallbackTitle_ne_empty {name : String} (h : htmlGlob name = true) :
    fallbackTitle name ≠ ("") := by
  unfold fallbackTitle
  intro he
  have hdata := congrArg String.data he
  have hnil : pyTitleAux false
      ((pyStem name.data).map (fun c => if c == '-' || c == '_' then ' ' else c)) = [] :=
    hdata
  have hlen := congrArg List.length hnil
  rw [pyTitleAux_length, List.length_map] at hlen
  exact pyStem_ne_nil (htmlGlob_data_ne_nil h) (List.length_eq_zero.mp hlen)

theorem titleFor_ne_empty {content name : String} (h : htmlGlob name = true) :
    titleFor content name ≠ ("") := by
  unfold titleFor pyOrStr
  cases extract_title content with
  | none => exact fallbackTitle_ne_empty h
  | some s =>
    by_cases hs : s = ("")
    · simpa [hs] using fallbackTitle_ne_empty h
    · simp [hs]

/-- Claim C10: an extracted title that strips to the empty string (such as
from `<title></title>`) is falsy in Python, so the filename-derived fallback
applies, and no `ToolInfo` returned by `scan_tools` ever has an empty
title. -/
theorem scan_title_fallback_nonempty :
    (∀ (content name : String), extract_title content = some ("") →
      titleFor content name = fallbackTitle name) ∧
    scan_tools [⟨("my-tool_x.html"),
        .ok ("<title>  </title><meta name=\"description\" content=\"d\">")⟩]
        defaultExclude =
      .ok ⟨[⟨("my-tool_x.html"), ("My Tool X"), ("d")⟩], []⟩ ∧
    (∀ (files : List DirFile) (ex : List String) (res : ScanOutput),
      scan_tools files ex = .ok res → ∀ t ∈ res.tools, t.title ≠ ("")) := by
  refine ⟨?_, by decide, ?_⟩
  · intro content name hec
    unfold titleFor pyOrStr
    rw [hec]
    simp
  · intro files ex res h t ht
    obtain ⟨o, hgo, hres⟩ := scan_tools_ok_elim h
    subst hres
    have ht' : t ∈ o.tools := (mem_insertionSort toolLE).mp ht
    obtain ⟨f, hf, hname, hhtml, c, hread, hdesc, htitle⟩ := scanGo_ok_shape hgo t ht'
    rw [htitle]
    exact titleFor_ne_empty hhtml

/-- Witness for C10: the general no-empty-title statement applied at a
concrete directory whose file has a whitespace-only title element. -/
theorem scan_title_fallback_nonempty_witness :
    (ToolInfo.mk ("my-tool_x.html") ("My Tool X") ("d")).title ≠ ("") :=
  scan_title_fallback_nonempty.2.2
    [⟨("my-tool_x.html"),
      .ok ("<title>  </title><meta name=\"description\" content=\"d\">")⟩]
    defaultExclude ⟨[⟨("my-tool_x.html"), ("My Tool X"), ("d")⟩], []⟩ (by decide)
    ⟨("my-tool_x.html"), ("My Tool X"), ("d")⟩ (by decide)

/-- Witness for C5: the general statement applied to a concrete directory
whose first file fails with an `OSError`. -/
theorem scan_os_error_skips_and_continues_witness :
    warnFor ("c.html") ("boom") ∈
      (ScanOutput.mk [⟨("good.html"), ("Good"), ("g")⟩]
        [warnFor ("c.html") ("boom")]).warnings ∧
    ∃ res2, scan_tools
        [DirFile.mk ("good.html") (.ok ("<meta name=\"description\" content=\"g\">"))]
        defaultExclude = .ok res2 ∧
      res2.tools = (ScanOutput.mk [⟨("good.html"), ("Good"), ("g")⟩]
        [warnFor ("c.html") ("boom")]).tools :=
  (scan_os_error_skips_and_continues defaultExclude []
    [DirFile.mk ("good.html") (.ok ("<meta name=\"description\" content=\"g\">"))]
    ("c.html") ("boom") (by decide) (by decide)).1
    ⟨[⟨("good.html"), ("Good"), ("g")⟩], [warnFor ("c.html") ("boom")]⟩ (by decide)

/-! ## Claim C4: `--check` and `--dry-run` on a stale index -/

/-- Claim C4: with a stale index (existing content differs from the new
content), `--check` exits 1 and writes nothing, while `--dry-run` (without
`--check`) exits 0, prints the would-be content, and writes nothing. -/
theorem main_check_dry_run_stale :
    ∀ (d : Bool) (cur new : String) (n : Nat), cur ≠ new →
      ((mainLogic true d (some cur) new n).exitCode = 1 ∧
       (mainLogic true d (some cur) new n).written = none) ∧
      ((mainLogic false true (some cur) new n).exitCode = 0 ∧
       (mainLogic false true (some cur) new n).written = none ∧
       new ∈ (mainLogic false true (some cur) new n).stdoutLines) := by
  intro d cur new n hne
  have hs : ¬ (some cur = some new) := by simpa using hne
  constructor
  · unfold mainLogic
    rw [if_neg hs, if_pos rfl]
    exact ⟨rfl, rfl⟩
  · unfold mainLogic
    rw [if_neg hs]
    simp

/-- Witness for C4 at concrete contents. -/
theorem main_check_dry_run_stale_witness :
    ((mainLogic true false (some ("old")) ("new") 0).exitCode = 1 ∧
     (mainLogic true false (some ("old")) ("new") 0).written = none) ∧
    ((mainLogic false true (some ("old")) ("new") 0).exitCode = 0 ∧
     (mainLogic false true (some ("old")) ("new") 0).written = none ∧
     ("new") ∈ (mainLogic false true (some ("old")) ("new") 0).stdoutLines) :=
  main_check_dry_run_stale false ("old") ("new") 0 (by decide)

/-! ## Claim C2: the placeholder substitution replaces every occurrence -/

/-- Claim C2, counterexample: with two placeholder occurrences in the
template and an empty tool list (empty fragment), both occurrences are
substituted — the output is `ABC`, not the `AB<!-- TOOLS_LIST -->C` that a
first-occurrence-only substitution would produce. -/
theorem generate_first_occurrence_only_fails :
    generate_index_html []
        (some ("A<!-- TOOLS_LIST -->B<!-- TOOLS_LIST -->C")) = .ok ("ABC") ∧
      ("ABC" : String) ≠ ("AB<!-- TOOLS_LIST -->C") :=
  ⟨by decide, by decide⟩

theorem replaceAllAux_zero_cons (pat rep : List Char) (c : Char) (l : List Char) :
    replaceAllAux pat rep 0 (c :: l) =
      if pat.isPrefixOf (c :: l) then rep ++ replaceAllAux pat rep (pat.length - 1) l
      else c :: replaceAllAux pat rep 0 l := by
  simp [replaceAllAux]

theorem replaceAllAux_succ_cons (pat rep : List Char) (k : Nat) (c : Char)
    (l : List Char) :
    replaceAllAux pat rep (k + 1) (c :: l) = replaceAllAux pat rep k l := by
  simp [replaceAllAux]

theorem replaceAllAux_skip (pat rep : List Char) :
    ∀ (x rest : List Char),
      replaceAllAux pat rep x.length (x ++ rest) = replaceAllAux pat rep 0 rest := by
  intro x
  induction x with
  | nil => intro rest; rfl
  | cons c x' ih =>
    intro rest
    rw [List.cons_append, List.length_cons, replaceAllAux_succ_cons]
    exact ih rest

theorem replaceAllAux_at_pat {p0 : Char} {pt rep : List Char} (rest : List Char) :
    replaceAllAux (p0 :: pt) rep 0 ((p0 :: pt) ++ rest) =
      rep ++ replaceAllAux (p0 :: pt) rep 0 rest := by
  rw [List.cons_append, replaceAllAux_zero_cons]
  have hpre : (p0 :: pt).isPrefixOf (p0 :: (pt ++ rest)) = true := by
    rw [← List.cons_append]
    exact List.isPrefixOf_iff_prefix.mpr (List.prefix_append _ _)
  rw [if_pos hpre]
  have hlen : (p0 :: pt).length - 1 = pt.length := by simp
  rw [hlen, replaceAllAux_skip]

theorem replaceAllAux_no_head {p0 : Char} {pt rep : List Char} :
    ∀ {l : List Char}, p0 ∉ l → replaceAllAux (p0 :: pt) rep 0 l = l := by
  intro l
  induction l with
  | nil => intro _; rfl
  | cons c cs ih =>
    intro h
    have hc : p0 ≠ c := fun he => h (he ▸ List.mem_cons_self c cs)
    have hpre : (p0 :: pt).isPrefixOf (c :: cs) = false := by
      simp only [List.isPrefixOf]
      rw [beq_eq_false_iff_ne.mpr hc]
      rfl
    rw [replaceAllAux_zero_cons, hpre]
    simp only [Bool.false_eq_true, if_false]
    rw [ih (fun hm => h (List.mem_cons_of_mem _ hm))]

theorem replaceAllAux_walk {p0 : Char} {pt rep : List Char} :
    ∀ {a : List Char} (l : List Char), p0 ∉ a →
      replaceAllAux (p0 :: pt) rep 0 (a ++ l) =
        a ++ replaceAllAux (p0 :: pt) rep 0 l := by
  intro a
  induction a with
  | nil => intro l _; rfl
  | cons c a' ih =>
    intro l h
    have hc : p0 ≠ c := fun he => h (he ▸ List.mem_cons_self c a')
    have hpre : (p0 :: pt).isPrefixOf (c :: (a' ++ l)) = false := by
      simp only [List.isPrefixOf]
      rw [beq_eq_false_iff_ne.mpr hc]
      rfl
    rw [List.cons_append, replaceAllAux_zero_cons, hpre]
    simp only [Bool.false_eq_true, if_false]
    rw [ih l (fun hm => h (List.mem_cons_of_mem _ hm)), List.cons_append]

/-- Claim C2, amended: `str.replace` substitutes the rendered fragment for
every occurrence of the placeholder, scanning left to right without
rescanning substituted text; later occurrences are replaced too, not left
unchanged.  (The side conditions keep the quantified template pieces free of
`<`, so the placeholder occurs exactly where exhibited.) -/
theorem generate_replaces_all_occurrences :
    ∀ (tools : List ToolInfo) (a b c : List Char),
      ('<') ∉ a → ('<') ∉ b → ('<') ∉ c →
      generate_index_html tools
          (some (String.mk (a ++ PLACEHOLDER.data ++ b ++ PLACEHOLDER.data ++ c))) =
        .ok (String.mk (a ++ (render_tools_html tools).data ++ b ++
          (render_tools_html tools).data ++ c)) := by
  intro tools a b c ha hb hc
  unfold generate_index_html pyReplace
  dsimp only
  have hP : PLACEHOLDER.data = ('<') :: ("!-- TOOLS_LIST -->").data := rfl
  congr 1
  congr 1
  rw [hP]
  simp only [List.append_assoc]
  rw [replaceAllAux_walk _ ha, replaceAllAux_at_pat, replaceAllAux_walk _ hb,
    replaceAllAux_at_pat, replaceAllAux_no_head hc]

/-- Witness for the amended C2 at concrete template pieces. -/
theorem generate_replaces_all_occurrences_witness :
    generate_index_html []
        (some (String.mk (("A").data ++ PLACEHOLDER.data ++ ("B").data ++
          PLACEHOLDER.data ++ ("C").data))) =
      .ok (String.mk (("A").data ++ (render_tools_html []).data ++ ("B").data ++
        (render_tools_html []).data ++ ("C").data)) :=
  generate_replaces_all_occurrences [] (("A").data) (("B").data) (("C").data)
    (by decide) (by decide) (by decide)

/-! ## Claim C7: all user-sourced fields are HTML-escaped in the fragment -/

theorem escChar_no_raw : ∀ (a c : Char), c ∈ escChar a →
    ((c == '<') || (c == '>') || (c == dq) || (c == sq)) = false := by
  intro a c hmem
  unfold escChar at hmem
  by_cases h1 : (a == '&') = true
  · rw [if_pos h1] at hmem
    have hm : c ∈ [('&'), ('a'), ('m'), ('p'), (';')] := hmem
    fin_cases hm <;> decide
  · rw [if_neg h1] at hmem
    by_cases h2 : (a == '<') = true
    · rw [if_pos h2] at hmem
      have hm : c ∈ [('&'), ('l'), ('t'), (';')] := hmem
      fin_cases hm <;> decide
    · rw [if_neg h2] at hmem
      by_cases h3 : (a == '>') = true
      · rw [if_pos h3] at hmem
        have hm : c ∈ [('&'), ('g'), ('t'), (';')] := hmem
        fin_cases hm <;> decide
      · rw [if_neg h3] at hmem
        by_cases h4 : (a == dq) = true
        · rw [if_pos h4] at hmem
          have hm : c ∈ [('&'), ('q'), ('u'), ('o'), ('t'), (';')] := hmem
          fin_cases hm <;> decide
        · rw [if_neg h4] at hmem
          by_cases h5 : (a == sq) = true
          · rw [if_pos h5] at hmem
            have hm : c ∈ [('&'), ('#'), ('x'), ('2'), ('7'), (';')] := hmem
            fin_cases hm <;> decide
          · rw [if_neg h5] at hmem
            have hca : c = a := by simpa using hmem
            subst hca
            have e2 : (c == '<') = false := by revert h2; cases (c == '<') <;> simp
            have e3 : (c == '>') = false := by revert h3; cases (c == '>') <;> simp
            have e4 : (c == dq) = false := by revert h4; cases (c == dq) <;> simp
            have e5 : (c == sq) = false := by revert h5; cases (c == sq) <;> simp
            rw [e2, e3, e4, e5]
            rfl

theorem esc_no_raw : ∀ (s : String) (c : Char), c ∈ (esc s).data →
    ((c == '<') || (c == '>') || (c == dq) || (c == sq)) = false := by
  intro s c hc
  have hc' : c ∈ s.data.flatMap escChar := hc
  obtain ⟨a, _, hmem⟩ := List.mem_flatMap.mp hc'
  exact escChar_no_raw a c hmem

theorem joinNL_mem_decomp : ∀ (l : List String) (s : String), s ∈ l →
    ∃ pre post, (joinNL l).data = pre ++ s.data ++ post := by
  intro l
  induction l with
  | nil => intro s hs; simp at hs
  | cons x rest ih =>
    intro s hs
    rcases List.mem_cons.mp hs with heq | hmem
    · subst heq
      cases rest with
      | nil => exact ⟨[], [], by simp [joinNL]⟩
      | cons y rest' =>
        refine ⟨[], (("\n") ++ joinNL (y :: rest')).data, ?_⟩
        simp [joinNL]
    · cases rest with
      | nil => simp at hmem
      | cons y rest' =>
        obtain ⟨pre, post, hp⟩ := ih s hmem
        refine ⟨x.data ++ nl :: pre, post, ?_⟩
        show (x ++ ("\n") ++ joinNL (y :: rest')).data = _
        rw [String.data_append, String.data_append, hp,
          show (("\n").data : List Char) = [nl] from rfl]
        simp

/-- Claim C7: the rendered fragment contains each tool's item, each item
embeds the filename, title and description only through `html.escape`, and
an escaped string contains no raw `<`, `>`, double- or single-quote
character — e.g. a description `<script>` is emitted as
`&lt;script&gt;` — while `&` becomes `&amp;`. -/
theorem render_escapes_fields :
    ∀ (tools : List ToolInfo) (t : ToolInfo), t ∈ tools →
      (∃ pre post,
        (render_tools_html tools).data = pre ++ (renderToolItem t).data ++ post) ∧
      renderToolItem t = liPre ++ esc t.filename ++ liMid1 ++ esc t.title ++ liMid2 ++
        esc t.description ++ liSuf ∧
      (∀ (s : String) (c : Char), c ∈ (esc s).data →
        ((c == '<') || (c == '>') || (c == dq) || (c == sq)) = false) ∧
      esc ("<script>") = ("&lt;script&gt;") ∧ esc ("&") = ("&amp;") := by
  intro tools t ht
  exact ⟨joinNL_mem_decomp _ _ (List.mem_map_of_mem renderToolItem ht), rfl,
    esc_no_raw, by decide, by decide⟩

/-- Witness for C7 at a concrete tool list whose description contains
`<script>`. -/
theorem render_escapes_fields_witness :
    (∃ pre post,
      (render_tools_html [ToolInfo.mk ("a.html") ("T") ("<script>")]).data =
        pre ++ (renderToolItem (ToolInfo.mk ("a.html") ("T") ("<script>"))).data ++ post) ∧
    renderToolItem (ToolInfo.mk ("a.html") ("T") ("<script>")) =
      liPre ++ esc ("a.html") ++ liMid1 ++ esc ("T") ++ liMid2 ++
        esc ("<script>") ++ liSuf ∧
    (∀ (s : String) (c : Char), c ∈ (esc s).data →
      ((c == '<') || (c == '>') || (c == dq) || (c == sq)) = false) ∧
    esc ("<script>") = ("&lt;script&gt;") ∧ esc ("&") = ("&amp;") :=
  render_escapes_fields [ToolInfo.mk ("a.html") ("T") ("<script>")]
    (ToolInfo.mk ("a.html") ("T") ("<script>")) (by decide)

/-! ## Claim C8: `extract_description` on well-formed tags and on
pattern-free inputs -/

theorem litCI_self : ∀ (lit r : List Char), litCI lit (lit ++ r) = some r := by
  intro lit
  induction lit with
  | nil => intro r; rfl
  | cons p ps ih =>
    intro r
    rw [List.cons_append]
    show litCI (p :: ps) (p :: (ps ++ r)) = some r
    simp only [litCI]
    have hp : charEqCI p p = true := by simp [charEqCI]
    rw [if_pos hp]
    exact ih r

theorem dropWhile_ws_append : ∀ (l r : List Char), (∀ c ∈ l, isWsChar c = true) →
    List.dropWhile isWsChar (l ++ r) = List.dropWhile isWsChar r := by
  intro l
  induction l with
  | nil => intro r _; rfl
  | cons c cs ih =>
    intro r hall
    rw [List.cons_append]
    simp [List.dropWhile_cons, hall c (List.mem_cons_self _ _),
      ih r (fun x hx => hall x (List.mem_cons_of_mem _ hx))]

theorem wsPlus_at {ws : List Char} (hne : ws ≠ []) (hall : ∀ c ∈ ws, isWsChar c = true)
    {ch : Char} (hch : isWsChar ch = false) (r : List Char) :
    wsPlus (ws ++ ch :: r) = some (ch :: r) := by
  cases ws with
  | nil => exact absurd rfl hne
  | cons w ws' =>
    rw [List.cons_append]
    show wsPlus (w :: (ws' ++ ch :: r)) = _
    simp only [wsPlus]
    rw [if_pos (hall w (List.mem_cons_self _ _))]
    rw [dropWhile_ws_append ws' (ch :: r) (fun x hx => hall x (List.mem_cons_of_mem _ hx))]
    simp [List.dropWhile_cons, hch]

theorem wsPlus_lit {ws : List Char} (hne : ws ≠ []) (hall : ∀ c ∈ ws, isWsChar c = true)
    {c0 : Char} (hc0 : isWsChar c0 = false) (lt K : List Char) :
    wsPlus (ws ++ ((c0 :: lt) ++ K)) = some ((c0 :: lt) ++ K) := by
  rw [List.cons_append]
  exact wsPlus_at hne hall hc0 (lt ++ K)

theorem quoteTok_at {q : Char} (hq : isQuoteChar q = true) (r : List Char) :
    quoteTok (q :: r) = some r := by
  simp [quoteTok, hq]

theorem captureUntilQuote_at {cap : List Char}
    (hcap : ∀ c ∈ cap, isQuoteChar c = false ∧ (c == nl) = false) {q : Char}
    (hq : isQuoteChar q = true) (rest : List Char) :
    captureUntilQuote (cap ++ q :: rest) = some cap := by
  induction cap with
  | nil => simp [captureUntilQuote, hq]
  | cons c cs ih =>
    have hc := hcap c (List.mem_cons_self _ _)
    rw [List.cons_append]
    simp [captureUntilQuote, hc.1, hc.2,
      ih (fun x hx => hcap x (List.mem_cons_of_mem _ hx))]

theorem litCI_step {p c : Char} (h : charEqCI p c = true) (ps cs : List Char) :
    litCI (p :: ps) (c :: cs) = litCI ps cs := by
  simp [litCI, h]

theorem charEqCI_self (c : Char) : charEqCI c c = true := by
  simp [charEqCI]

theorem litCI_nil (l : List Char) : litCI [] l = some l := rfl

theorem matchDescAt_tag {ws1 ws2 cap : List Char} {q1 q2 q3 q4 : Char}
    (hws1 : ws1 ≠ []) (hws1a : ∀ c ∈ ws1, isWsChar c = true)
    (hws2 : ws2 ≠ []) (hws2a : ∀ c ∈ ws2, isWsChar c = true)
    (hq1 : isQuoteChar q1 = true) (hq2 : isQuoteChar q2 = true)
    (hq3 : isQuoteChar q3 = true) (hq4 : isQuoteChar q4 = true)
    (hcap : ∀ c ∈ cap, isQuoteChar c = false ∧ (c == nl) = false) (rest : List Char) :
    matchDescAt (metaTag ws1 q1 q2 ws2 q3 q4 cap ++ rest) = some cap := by
  unfold matchDescAt metaTag
  simp only [List.append_assoc, List.cons_append, List.nil_append]
  simp only [litCI_step, litCI_nil, Option.bind, charEqCI_self]
  rw [wsPlus_at hws1 hws1a (show isWsChar ('n') = false from by decide)]
  simp only [litCI_step, litCI_nil, Option.bind, charEqCI_self]
  rw [quoteTok_at hq1]
  simp only [litCI_step, litCI_nil, Option.bind, charEqCI_self]
  rw [quoteTok_at hq2]
  simp only [Option.bind]
  rw [wsPlus_at hws2 hws2a (show isWsChar ('c') = false from by decide)]
  simp only [litCI_step, litCI_nil, Option.bind, charEqCI_self]
  rw [quoteTok_at hq3]
  simp only [Option.bind]
  exact captureUntilQuote_at hcap hq4 rest

theorem searchDesc_found : ∀ (l cap : List Char), l ≠ [] →
    matchDescAt l = some cap → searchDesc l = some cap := by
  intro l cap hne hm
  cases l with
  | nil => exact absurd rfl hne
  | cons c rest =>
    simp only [searchDesc]
    rw [hm]

theorem searchDesc_skip : ∀ (pre T : List Char),
    (∀ s ∈ pre.tails, s ≠ [] → matchDescAt (s ++ T) = none) →
    searchDesc (pre ++ T) = searchDesc T := by
  intro pre
  induction pre with
  | nil => intro T _; rfl
  | cons c pre' ih =>
    intro T h
    rw [List.cons_append]
    have hm : matchDescAt (c :: (pre' ++ T)) = none := by
      have hh := h (c :: pre') ((List.mem_tails _ _).mpr (List.suffix_refl _))
        (by simp)
      simpa using hh
    simp only [searchDesc]
    rw [hm]
    dsimp only
    exact ih T (fun s hs hne =>
      h s ((List.mem_tails _ _).mpr
        (((List.mem_tails _ _).mp hs).trans (List.suffix_cons _ _))) hne)

theorem searchDesc_none_of_all : ∀ (l : List Char),
    (∀ s ∈ l.tails, matchDescAt s = none) → searchDesc l = none := by
  intro l
  induction l with
  | nil => intro _; rfl
  | cons c rest ih =>
    intro h
    simp only [searchDesc]
    rw [h (c :: rest) ((List.mem_tails _ _).mpr (List.suffix_refl _))]
    dsimp only
    exact ih (fun s hs =>
      h s ((List.mem_tails _ _).mpr
        (((List.mem_tails _ _).mp hs).trans (List.suffix_cons _ _))))

/-- Claim C8: any input that is a well-formed meta-description tag (attribute
order `name` then `content`, either quoting, value free of quotes and
newlines) preceded by match-free text makes `extract_description` return the
stripped captured value; an input in which the pattern matches at no
position yields `none`. -/
theorem extract_description_correct :
    (∀ (pre ws1 ws2 cap rest : List Char) (q1 q2 q3 q4 : Char),
      ws1 ≠ [] → (∀ c ∈ ws1, isWsChar c = true) →
      ws2 ≠ [] → (∀ c ∈ ws2, isWsChar c = true) →
      isQuoteChar q1 = true → isQuoteChar q2 = true →
      isQuoteChar q3 = true → isQuoteChar q4 = true →
      (∀ c ∈ cap, isQuoteChar c = false ∧ (c == nl) = false) →
      (∀ s ∈ pre.tails, s ≠ [] →
        matchDescAt (s ++ (metaTag ws1 q1 q2 ws2 q3 q4 cap ++ rest)) = none) →
      extract_description
          (String.mk (pre ++ (metaTag ws1 q1 q2 ws2 q3 q4 cap ++ rest))) =
        some (String.mk (pyStrip cap))) ∧
    (∀ content : String, (∀ s ∈ content.data.tails, matchDescAt s = none) →
      extract_description content = none) := by
  constructor
  · intro pre ws1 ws2 cap rest q1 q2 q3 q4 hws1 hws1a hws2 hws2a hq1 hq2 hq3 hq4 hcap hpre
    unfold extract_description
    dsimp only
    rw [searchDesc_skip pre _ hpre]
    rw [searchDesc_found _ cap (by simp [metaTag])
      (matchDescAt_tag hws1 hws1a hws2 hws2a hq1 hq2 hq3 hq4 hcap rest)]
    rfl
  · intro content h
    unfold extract_description
    rw [searchDesc_none_of_all content.data h]
    rfl

/-- Witness for C8: a concrete double-quoted tag whose value strips to
`Hello`, and a concrete input with no match anywhere. -/
theorem extract_description_correct_witness :
    extract_description
        (String.mk ([] ++ (metaTag [(' ')] dq dq [(' ')] dq dq ((" Hello ").data) ++
          ((">").data)))) = some (String.mk (pyStrip ((" Hello ").data))) ∧
    extract_description ("<p>no description</p>") = none :=
  ⟨extract_description_correct.1 [] [(' ')] [(' ')] ((" Hello ").data) ((">").data)
      dq dq dq dq (by decide) (by decide) (by decide) (by decide) (by decide)
      (by decide) (by decide) (by decide) (by decide) (by decide),
   extract_description_correct.2 ("<p>no description</p>") (by decide)⟩

end UpdateIndex
